import Mathlib

/-!
Verification of the JSON→CSV/XLSX universal parser core.

This file gives a shallow embedding, in Lean 4, of the flattening engine
(`src/json_flattener.py`) and of the relevant parts of the workbook builder
(`src/xlsx_exporter.py`), together with theorems settling the claims
C1–C10 about those components.

Modelling conventions:
* Python JSON values are the inductive `Json` (tagged union, as in spec §3).
* Python `dict` objects are association lists in insertion order; assignment
  is `dictSet` (update-in-place on an existing key, append otherwise).
* Python strings are Lean `String`; the string operations the source uses
  (`strip`, `replace`, `in`, `startswith`, `endswith`, `split`, comparison)
  are re-implemented over `List Char` below so that they both match Python
  semantics and evaluate inside the kernel.  Python `strip()` removes a
  slightly larger (unicode) whitespace set; only the ASCII whitespace
  characters are modelled, which is exact for every input appearing here.
* Python numbers (`int`/`float`) are modelled as `Rat`; JSON integer
  literals are integral rationals.  String rendering of numbers
  (`pyNumStr`) is exact for integral values, the only numeric values any
  claim exercises.
-/

/-- Python ASCII whitespace, as recognised by `str.strip()`. -/
def pyWhitespaceChar (c : Char) : Bool :=
  c == ' ' || c == '\t' || c == '\n' || c == '\r' || c == '\x0b' || c == '\x0c'

/-- Python `s.strip()` (ASCII whitespace portion). -/
def pyStrip (s : String) : String :=
  ⟨((s.toList.dropWhile pyWhitespaceChar).reverse.dropWhile pyWhitespaceChar).reverse⟩

/-- Worker for `pyReplace`: replaces non-overlapping occurrences of `pat`
left to right, as Python `str.replace` does.  The `Nat` argument is fuel;
one unit is spent per character position, so `s.length` fuel is always
enough (each step consumes at least one character). -/
def pyReplaceGo (pat repl : List Char) : Nat → List Char → List Char
  | _, [] => []
  | 0, s => s
  | fuel + 1, c :: rest =>
    if pat.isPrefixOf (c :: rest) then
      repl ++ pyReplaceGo pat repl fuel ((c :: rest).drop pat.length)
    else
      c :: pyReplaceGo pat repl fuel rest

/-- Python `s.replace(pat, repl)` (all occurrences).  An empty pattern
inserts `repl` at every position, as in Python. -/
def pyReplace (s pat repl : String) : String :=
  if pat.toList.isEmpty then
    ⟨repl.toList ++ s.toList.foldr (fun c acc => c :: (repl.toList ++ acc)) []⟩
  else
    ⟨pyReplaceGo pat.toList repl.toList s.toList.length s.toList⟩

/-- Python `pat in s` on lists of characters. -/
def containsSubList (pat : List Char) : List Char → Bool
  | [] => pat.isEmpty
  | c :: rest => pat.isPrefixOf (c :: rest) || containsSubList pat rest

/-- Python `pat in s` for strings. -/
def containsSub (s pat : String) : Bool := containsSubList pat.toList s.toList

/-- Python `s.startswith(pre)`. -/
def pyStartsWith (s p : String) : Bool := p.toList.isPrefixOf s.toList

/-- Python `s.endswith(suf)`. -/
def pyEndsWith (s suf : String) : Bool := suf.toList.isSuffixOf s.toList

/-- Lexicographic (code-point) order on character lists, Python `<`. -/
def charListLt : List Char → List Char → Bool
  | [], [] => false
  | [], _ :: _ => true
  | _ :: _, [] => false
  | a :: as, b :: bs => if a < b then true else if b < a then false else charListLt as bs

/-- Python string `<` (code-point lexicographic). -/
def pyStrLt (a b : String) : Bool := charListLt a.toList b.toList

/-- Worker for `pySplit` (fuelled like `pyReplaceGo`). -/
def pySplitGo (sep : List Char) : Nat → List Char → List (List Char)
  | _, [] => [[]]
  | 0, s => [s]
  | fuel + 1, c :: rest =>
    if sep.isPrefixOf (c :: rest) then
      [] :: pySplitGo sep fuel ((c :: rest).drop sep.length)
    else
      match pySplitGo sep fuel rest with
      | [] => [[c]]
      | p :: ps => (c :: p) :: ps

/-- Python `s.split(sep)` for a non-empty separator (the only way the
source calls it). -/
def pySplit (s sep : String) : List String :=
  (pySplitGo sep.toList s.toList.length s.toList).map (fun l => ⟨l⟩)

/-- JSON values: the tagged union of spec §3 (model of the Python values
`json.loads` produces).  Numbers are rationals (see header). -/
inductive Json where
  | null
  | bool (b : Bool)
  | num (q : Rat)
  | str (s : String)
  | arr (items : List Json)
  | obj (fields : List (String × Json))

/-- Python values a flat row stores (the `Any` values the flattener writes
into `out` and the exporter reads back; `vNone`/`vBool` only occur via the
exporter's defensive branches). -/
inductive PyVal where
  | vNone
  | vBool (b : Bool)
  | vStr (s : String)
  | vNum (q : Rat)
deriving DecidableEq, Repr

/-- Python dict assignment `m[k] = v`: in-place update when the key exists
(keeping its position), append otherwise. -/
def dictSet (m : List (String × PyVal)) (k : String) (v : PyVal) : List (String × PyVal) :=
  if m.any (fun p => p.1 == k) then
    m.map (fun p => if p.1 == k then (k, v) else p)
  else
    m ++ [(k, v)]

/-- The keys of a flat row, in insertion order. -/
def dictKeys (m : List (String × PyVal)) : List String := m.map Prod.fst

/-- Test for a scalar-or-null array element:
Python `type(x) in (str, int, float, bool) or x is None`. -/
def isScalarLike : Json → Bool
  | .str _ => true
  | .num _ => true
  | .bool _ => true
  | .null => true
  | _ => false

/-- Test for `isinstance(x, dict)`. -/
def isObjNode : Json → Bool
  | .obj _ => true
  | _ => false

/-- String rendering of a number, exact for integral values (Python
`str(int)`); non-integral rationals are rendered as a fraction, a case no
claim exercises. -/
def pyNumStr (q : Rat) : String :=
  if q.den = 1 then toString q.num else toString q.num ++ "/" ++ toString q.den

/-- Python `str(x)` for the scalar-or-null elements the joined-array branch
iterates over (other constructors are unreachable under that branch's
guard). -/
def pyStrScalar : Json → String
  | .null => "None"
  | .bool b => if b then "True" else "False"
  | .num q => pyNumStr q
  | .str s => s
  | .arr _ => ""
  | .obj _ => ""

/-- Python `", ".join(str(x) for x in items)`. -/
def joinScalars (items : List Json) : String :=
  String.intercalate ", " (items.map pyStrScalar)

/-- One hexadecimal digit. -/
def hexDigitChar (n : Nat) : Char :=
  if n < 10 then Char.ofNat ('0'.toNat + n) else Char.ofNat ('a'.toNat + (n - 10))

/-- JSON string escaping as `json.dumps(..., ensure_ascii=False)` performs it. -/
def jsonEscapeChar (c : Char) : String :=
  if c = '"' then "\\\""
  else if c = '\\' then "\\\\"
  else if c = '\n' then "\\n"
  else if c = '\t' then "\\t"
  else if c = '\r' then "\\r"
  else if c.toNat < 32 then
    "\\u00" ++ String.mk [hexDigitChar (c.toNat / 16), hexDigitChar (c.toNat % 16)]
  else String.mk [c]

/-- Escape a whole string for JSON output. -/
def jsonEscape (s : String) : String := String.join (s.toList.map jsonEscapeChar)

mutual
/-- Python `json.dumps(obj, ensure_ascii=False)` with the default
separators `", "` and `": "`, as called at `json_flattener.py:123`. -/
def pyJsonDumps : Json → String
  | .null => "null"
  | .bool b => if b then "true" else "false"
  | .num q => pyNumStr q
  | .str s => "\"" ++ jsonEscape s ++ "\""
  | .arr items => "[" ++ dumpsList items ++ "]"
  | .obj fields => "\x7b" ++ dumpsFields fields ++ "\x7d"
termination_by structural j => j

/-- Comma-joined dumps of array elements. -/
def dumpsList : List Json → String
  | [] => ""
  | [x] => pyJsonDumps x
  | x :: rest => pyJsonDumps x ++ ", " ++ dumpsList rest
termination_by structural l => l

/-- Comma-joined dumps of object entries. -/
def dumpsFields : List (String × Json) → String
  | [] => ""
  | [(k, v)] => "\"" ++ jsonEscape k ++ "\": " ++ pyJsonDumps v
  | (k, v) :: rest => "\"" ++ jsonEscape k ++ "\": " ++ pyJsonDumps v ++ ", " ++ dumpsFields rest
termination_by structural l => l
end

/-- One scoped exclusion rule, the `{"path": ..., "keys": [...]}` entries of
`exclude_keys_in_path`. -/
structure ExclRule where
  path : String
  keys : List String

/-- The scoped-exclusion test of the array-of-objects branch
(`json_flattener.py:91-98`): skip key `k` when some rule has a non-empty
stripped path contained in (or ending) the current prefix and lists `k`. -/
def scopedSkipArray (rules : List ExclRule) (pre k : String) : Bool :=
  rules.any (fun rule =>
    let pathPart := pyStrip rule.path
    !(pathPart == "") && !rule.keys.isEmpty && rule.keys.contains k &&
      (pyEndsWith pre pathPart || containsSub pre pathPart))

/-- The scoped-exclusion test of the nested-object branch
(`json_flattener.py:137-144`), which additionally tests the new prefix. -/
def scopedSkipObject (rules : List ExclRule) (pre newPre k : String) : Bool :=
  rules.any (fun rule =>
    let pathPart := pyStrip rule.path
    !(pathPart == "") && !rule.keys.isEmpty && rule.keys.contains k &&
      (pyEndsWith pre pathPart || containsSub pre pathPart || pyEndsWith newPre pathPart))

/-- Key-to-segment transformation used everywhere a key joins a path:
`str(k).replace(sep.strip(), "_").strip()`. -/
def pySegment (k sep : String) : String := pyStrip (pyReplace k (pyStrip sep) "_")

/-- Column suffix for element `idx` (0-based) of an exploded array:
the literal `" - (idx+1)"` of `json_flattener.py:86`. -/
def arrayIdxSuffix (idx : Nat) : String := " - (" ++ toString (idx + 1) ++ ")"

mutual
/-- The recursive flattener `_flatten_one(obj, prefix, sep, out,
exclude_keys, exclude_keys_in_path)` of `json_flattener.py:40-154`.
The `bool` case stores lowercase `"true"`/`"false"`; the final Python
catch-all (`out[prefix] = str(obj)`) is unreachable because `Json` has no
further constructors. -/
def flattenOne (obj : Json) (pre sep : String) (out : List (String × PyVal))
    (excl : List String) (rules : List ExclRule) : List (String × PyVal) :=
  if excl.contains pre then out
  else match obj with
    | .null => dictSet out pre (.vStr "")
    | .bool b => dictSet out pre (.vStr (if b then "true" else "false"))
    | .num q => dictSet out pre (.vNum q)
    | .str s => dictSet out pre (.vStr s)
    | .arr items =>
      if items.isEmpty then dictSet out pre (.vStr "")
      else if items.all isScalarLike then dictSet out pre (.vStr (joinScalars items))
      else if items.all isObjNode then explodeItems items 0 pre sep out excl rules
      else dictSet out pre (.vStr (pyJsonDumps (.arr items)))
    | .obj fields => objFields fields pre sep out excl rules
termination_by structural obj

/-- The `for idx, item in enumerate(obj)` loop of the array-of-objects
branch (`json_flattener.py:83-120`); non-dict items are skipped
(`continue`), though the branch guard makes that unreachable. -/
def explodeItems (items : List Json) (idx : Nat) (pre sep : String)
    (out : List (String × PyVal)) (excl : List String) (rules : List ExclRule) :
    List (String × PyVal) :=
  match items with
  | [] => out
  | item :: rest =>
    let out' := match item with
      | .obj fields => explodeItemFields fields (arrayIdxSuffix idx) pre sep out excl rules
      | _ => out
    explodeItems rest (idx + 1) pre sep out' excl rules
termination_by structural items

/-- The `for k, v in item.items()` loop inside the array-of-objects branch
(`json_flattener.py:87-120`). -/
def explodeItemFields (fields : List (String × Json)) (suffix pre sep : String)
    (out : List (String × PyVal)) (excl : List String) (rules : List ExclRule) :
    List (String × PyVal) :=
  match fields with
  | [] => out
  | (k, v) :: rest =>
    let out' :=
      if excl.contains k then out
      else if scopedSkipArray rules pre k then out
      else
        let part := pySegment k sep
        let colName := if pre == "" then part ++ suffix else pre ++ sep ++ part ++ suffix
        if excl.contains colName then out
        else match v with
          | .null => dictSet out colName (.vStr "")
          | .bool b => dictSet out colName (.vStr (if b then "true" else "false"))
          | .num q => dictSet out colName (.vNum q)
          | .str s => dictSet out colName (.vStr s)
          | .obj _ => flattenOne v colName sep out excl rules
          | .arr _ => flattenOne v colName sep out excl rules
    explodeItemFields rest suffix pre sep out' excl rules
termination_by structural fields

/-- The `for k, v in obj.items()` loop of the nested-object branch
(`json_flattener.py:129-151`). -/
def objFields (fields : List (String × Json)) (pre sep : String)
    (out : List (String × PyVal)) (excl : List String) (rules : List ExclRule) :
    List (String × PyVal) :=
  match fields with
  | [] => out
  | (k, v) :: rest =>
    let out' :=
      if excl.contains k then out
      else
        let part := pySegment k sep
        let newPre := if pre == "" then part else pre ++ sep ++ part
        if excl.contains newPre then out
        else if scopedSkipObject rules pre newPre k then out
        else flattenOne v newPre sep out excl rules
    objFields rest pre sep out' excl rules
termination_by structural fields
end

/-- `flatten_row(row, path_sep, exclude_keys, exclude_keys_in_path)`
(`json_flattener.py:157-178`). -/
def flattenRow (row : List (String × Json)) (sep : String)
    (excl : List String) (rules : List ExclRule) : List (String × PyVal) :=
  row.foldl (fun flat kv =>
    if excl.contains kv.1 then flat
    else flattenOne kv.2 (pySegment kv.1 sep) sep flat excl rules) []

example : flattenRow [("a", .obj [("b", .obj [("c", .str "v")])])] " - " [] [] =
    [("a - b - c", PyVal.vStr "v")] := rfl

/-- Wrapping of a non-dict row candidate: `{"_": item}`
(`json_flattener.py:204`). -/
def wrapItem (it : Json) : Json :=
  match it with
  | .obj _ => it
  | _ => .obj [("_", it)]

/-- Rows obtained from a JSON array root: each element is a row, non-dict
elements wrapped (`json_flattener.py:198-205`). -/
def rowsOfList (items : List Json) : List Json := items.map wrapItem

/-- First-occurrence dict lookup `fields[k]` / `k in fields`. -/
def lookupField (fields : List (String × Json)) (k : String) : Option Json :=
  (fields.find? (fun p => p.1 == k)).map (fun p => p.2)

/-- The priority-key scan of `extract_rows` (`json_flattener.py:211-213`):
first of `results, data, items, rows` that is present and maps to a list. -/
def prioFind : List String → List (String × Json) → Option (List Json)
  | [], _ => none
  | k :: ks, fields =>
    match lookupField fields k with
    | some (.arr l) => some l
    | _ => prioFind ks fields

/-- The fallback scan of `extract_rows` (`json_flattener.py:214-216`):
first value that is a non-empty list whose first element is a dict. -/
def firstObjArray : List (String × Json) → Option (List Json)
  | [] => none
  | (_, .arr (first :: rest)) :: fs =>
    if isObjNode first then some (first :: rest) else firstObjArray fs
  | _ :: fs => firstObjArray fs

/-- `extract_rows(data)` (`json_flattener.py:194-218`).  The source's
recursive calls are always applied to a list, so they are expressed
directly through `rowsOfList`. -/
def extractRows (data : Json) : List Json :=
  match data with
  | .arr items => rowsOfList items
  | .obj fields =>
    match fields with
    | [(_, .arr items)] => rowsOfList items
    | _ =>
      match prioFind ["results", "data", "items", "rows"] fields with
      | some items => rowsOfList items
      | none =>
        match firstObjArray fields with
        | some items => rowsOfList items
        | none => [data]
  | v => [.obj [("_", v)]]

/-- `_drill_into(row, path_start)` (`json_flattener.py:181-191`), with the
current node as first argument. -/
def drillGo : Json → List String → Option Json
  | current, [] => if isObjNode current then some current else none
  | current, key :: restPath =>
    match current with
    | .obj fields =>
      match lookupField fields key with
      | some nxt => drillGo nxt restPath
      | none => none
    | _ => none

/-- View a row as a dict for `row.items()`.  Rows produced by
`extract_rows` are always objects (claim C10), so the default is
unreachable in the pipeline. -/
def asObjFields : Json → List (String × Json)
  | .obj fields => fields
  | _ => []

/-- The column-sort regex `^(.+) - \((\d+)\)$` of
`json_flattener.py:21`: splits a column name into its greedy base and its
1-based trailing array index, when the name has the indexed shape. -/
def arrayIdxMatch (c : String) : Option (String × Nat) :=
  let l := c.toList
  if l.getLast? == some ')' then
    let t := l.dropLast
    let ds := (t.reverse.takeWhile Char.isDigit).reverse
    if ds.isEmpty then none
    else
      let t' := t.take (t.length - ds.length)
      if (" - (".toList).isSuffixOf t' then
        let base := t'.take (t'.length - 4)
        if base.isEmpty then none
        else some (⟨base⟩, ds.foldl (fun n ch => n * 10 + (ch.toNat - '0'.toNat)) 0)
      else none
  else none

/-- `_column_sort_key` (`json_flattener.py:24-37`): the 4-tuple
(group key, indexed flag, array index, tiebreak name). -/
def colKey (c : String) : String × Nat × Nat × String :=
  let parts := pySplit c " - "
  let groupKey := parts.headD c
  match arrayIdxMatch c with
  | some (base, n) => (groupKey, 1, n, base)
  | none => (groupKey, 0, 0, c)

/-- Lexicographic comparison of sort-key tuples, as Python compares them. -/
def keyTupleLe (a b : String × Nat × Nat × String) : Bool :=
  if pyStrLt a.1 b.1 then true
  else if pyStrLt b.1 a.1 then false
  else if a.2.1 < b.2.1 then true
  else if b.2.1 < a.2.1 then false
  else if a.2.2.1 < b.2.2.1 then true
  else if b.2.2.1 < a.2.2.1 then false
  else !(pyStrLt b.2.2.2 a.2.2.2)

/-- Column comparison `_column_sort_key(a) <= _column_sort_key(b)`. -/
def colSortLe (a b : String) : Bool := keyTupleLe (colKey a) (colKey b)

/-- Stable insertion of one element into a sorted list. -/
def insertLe (le : String → String → Bool) (x : String) : List String → List String
  | [] => [x]
  | y :: ys => if le x y then x :: y :: ys else y :: insertLe le x ys

/-- Stable sort by `le`.  Python's `sorted`/`list.sort` are stable, and a
stable sort under a total preorder is unique, so any stable algorithm is a
faithful model; moreover `colKey` is injective on column names, so the sort
result does not depend on the input order either. -/
def stableSort (le : String → String → Bool) : List String → List String
  | [] => []
  | x :: xs => insertLe le x (stableSort le xs)

/-- Order-preserving deduplication (models iterating a dict/set union in
first-encounter order; harmless before sorting because `colKey` is
injective). -/
def dedupKeepFirst (l : List String) : List String :=
  l.foldl (fun acc s => if acc.contains s then acc else acc ++ [s]) []

/-- Union of all rows' keys (`all_keys.update(flat.keys())`). -/
def collectColumns (rowsFlat : List (List (String × PyVal))) : List String :=
  dedupKeepFirst ((rowsFlat.map dictKeys).flatten)

/-- One step of the `for item in column_order` loop of
`flatten_json_data` (`json_flattener.py:305-319`); the accumulator is the
pair (ordered, used), with `used` kept as the list of placed columns. -/
def orderStep (columns : List String) (prefixSep : String)
    (acc : List String × List String) (item : String) : List String × List String :=
  let itemStr := pyStrip item
  if itemStr == "" then acc
  else if columns.contains itemStr && !acc.2.contains itemStr then
    (acc.1 ++ [itemStr], acc.2 ++ [itemStr])
  else
    let pre := itemStr ++ prefixSep
    let matching := stableSort colSortLe
      (columns.filter (fun c => pyStartsWith c pre && !acc.2.contains c))
    (acc.1 ++ matching, acc.2 ++ matching)

/-- The (ordered, used) pair after the whole `column_order` loop. -/
def orderedPart (columns : List String) (order : List String) (sep : String) :
    List String × List String :=
  let prefixSep := if sep == "" then " - " else sep
  order.foldl (orderStep columns prefixSep) ([], [])

/-- The `column_order` reordering of `flatten_json_data`
(`json_flattener.py:300-321`): placed columns first, then every unused
column in the incoming order. -/
def applyColumnOrder (columns : List String) (order : List String) (sep : String) :
    List String :=
  let op := orderedPart columns order sep
  op.1 ++ columns.filter (fun c => !op.2.contains c)

/-- `flatten_json_data` (`json_flattener.py:221-323`): extraction, drill,
per-row flattening, extra-path merging, column planning.  Returns
(flat rows, ordered column list). -/
def flattenJsonData (data : Json) (sep : String) (pathStart : List String)
    (pathStarts : List (List String)) (excl : List String) (rules : List ExclRule)
    (includeOnly : List String) (columnOrder : List String) :
    List (List (String × PyVal)) × List String :=
  let rowsRaw := extractRows data
  let mainPath := if pathStarts.isEmpty then pathStart else pathStarts.headD []
  let extraPaths := if pathStarts.isEmpty then [] else pathStarts.tail
  let rowsOriginal := rowsRaw
  let rowsDrilled :=
    if mainPath.isEmpty then rowsRaw
    else rowsRaw.map (fun row => (drillGo row mainPath).getD row)
  let allFlat := rowsDrilled.enum.map (fun iRow =>
    let flat := flattenRow (asObjFields iRow.2) sep excl rules
    if extraPaths.isEmpty then flat
    else match rowsOriginal[iRow.1]? with
      | none => flat
      | some orig =>
        extraPaths.foldl (fun flat extra =>
          match drillGo orig extra with
          | none => flat
          | some sub =>
            let extraFlat := flattenRow (asObjFields sub) sep excl rules
            let prefixSeg := pySegment (extra.getLastD "") sep
            extraFlat.foldl (fun flat kv =>
              let col := if prefixSeg == "" then kv.1 else prefixSeg ++ sep ++ kv.1
              dictSet flat col kv.2) flat) flat)
  let columns0 := stableSort colSortLe (collectColumns allFlat)
  let columns1 :=
    if includeOnly.isEmpty then columns0
    else stableSort colSortLe (columns0.filter (fun c => includeOnly.contains c))
  let columns2 :=
    if columnOrder.isEmpty then columns1
    else applyColumnOrder columns1 columnOrder sep
  (allFlat, columns2)

example : extractRows (.arr [.obj [("a", .num 1)], .num 2]) =
    [.obj [("a", .num 1)], .obj [("_", .num 2)]] := rfl

example : (flattenJsonData (.arr [.obj [("a", .num 1)], .obj [("a", .num 2)]])
    " - " [] [] [] [] [] []).2 = ["a"] := rfl

/-- Digit run parser: all characters must be digits and at least one. -/
def parseDigits (l : List Char) : Option Nat :=
  if l.isEmpty then none
  else if l.all Char.isDigit then
    some (l.foldl (fun n ch => n * 10 + (ch.toNat - '0'.toNat)) 0)
  else none

/-- Python `int(s)` on a string: strips whitespace, accepts an optional
sign followed by digits.  (Underscore digit grouping, accepted by Python,
is not modelled; no input here uses it.) -/
def pyParseInt (s : String) : Option Int :=
  match (pyStrip s).toList with
  | '+' :: rest => (parseDigits rest).map Int.ofNat
  | '-' :: rest => (parseDigits rest).map (fun n => -(n : Int))
  | l => (parseDigits l).map Int.ofNat

/-- Python `float(s)` restricted to plain decimal literals
(optional sign, digits with an optional fractional part; `inf`/`nan` and
exponent forms are not modelled; no input here uses them).  The value is
built with `mkRat` so it evaluates in the kernel. -/
def pyParseFloat (s : String) : Option Rat :=
  let body : List Char → Option Rat := fun l =>
    let intPart := l.takeWhile Char.isDigit
    match l.drop intPart.length with
    | [] => if intPart.isEmpty then none else (parseDigits intPart).map (fun n => mkRat n 1)
    | '.' :: fracPart =>
      if fracPart.all Char.isDigit && !(intPart.isEmpty && fracPart.isEmpty) then
        let ip := intPart.foldl (fun n ch => n * 10 + (ch.toNat - '0'.toNat)) 0
        let fp := fracPart.foldl (fun n ch => n * 10 + (ch.toNat - '0'.toNat)) 0
        some (mkRat (ip * 10 ^ fracPart.length + fp) (10 ^ fracPart.length))
      else none
    | _ => none
  match (pyStrip s).toList with
  | '+' :: rest => body rest
  | '-' :: rest => (body rest).map Neg.neg
  | l => body l

/-- Gregorian leap year. -/
def gregIsLeap (y : Nat) : Bool := y % 4 == 0 && (y % 100 != 0 || y % 400 == 0)

/-- Days in a month of the proleptic Gregorian calendar. -/
def daysInMonth (y m : Nat) : Nat :=
  if m == 2 then (if gregIsLeap y then 29 else 28)
  else if m == 4 || m == 6 || m == 9 || m == 11 then 30
  else 31

/-- Days before month `m` in year `y`. -/
def daysBeforeMonth (y m : Nat) : Nat :=
  (List.range (m - 1)).foldl (fun acc i => acc + daysInMonth y (i + 1)) 0

/-- Proleptic Gregorian ordinal (0001-01-01 is day 1), as Python's
`datetime.date.toordinal`. -/
def toOrdinal (y m d : Nat) : Nat :=
  365 * (y - 1) + (y - 1) / 4 - (y - 1) / 100 + (y - 1) / 400 + daysBeforeMonth y m + d

/-- Validity of a `datetime(y, m, d)` construction (Python raises
`ValueError` outside these bounds). -/
def validDate (y m d : Int) : Bool :=
  1 ≤ y && y ≤ 9999 && 1 ≤ m && m ≤ 12 && 1 ≤ d && d ≤ (daysInMonth y.toNat m.toNat : Int)

/-- Excel serial day for a valid date: days since the epoch
`datetime(1899, 12, 30)` (`xlsx_exporter.py:190`), which accounts for
Excel's fictitious 1900-02-29. -/
def dateSerial (y m d : Int) : Option Int :=
  if validDate y m d then
    some ((toOrdinal y.toNat m.toNat d.toNat : Int) - (toOrdinal 1899 12 30 : Int))
  else none

/-- The ISO branch of `_to_date_value` (`xlsx_exporter.py:208-212`):
`datetime.fromisoformat(s.replace("Z", "+00:00")[:10])`, modelled for the
10-character `YYYY-MM-DD` form (the only full-date form the claims use). -/
def isoDate (t : String) : Option Int :=
  match ((pyReplace t "Z" "+00:00").toList.take 10) with
  | [y1, y2, y3, y4, '-', m1, m2, '-', d1, d2] =>
    if [y1, y2, y3, y4, m1, m2, d1, d2].all Char.isDigit then
      let dv : Char → Int := fun ch => (ch.toNat - '0'.toNat : Nat)
      dateSerial (dv y1 * 1000 + dv y2 * 100 + dv y3 * 10 + dv y4)
        (dv m1 * 10 + dv m2) (dv d1 * 10 + dv d2)
    else none
  | _ => none

/-- One iteration of the `for sep in (".", "/", "-")` loop of
`_to_date_value` (`xlsx_exporter.py:214-225`). -/
def dmyTry (t : String) (sepc : String) : Option Int :=
  if containsSub t sepc && decide (8 ≤ t.toList.length) then
    match pySplit t sepc with
    | [p1, p2, p3] =>
      match pyParseInt p1, pyParseInt p2, pyParseInt p3 with
      | some d, some m, some y0 =>
        let y := if y0 < 100 then (if y0 < 50 then y0 + 2000 else y0 + 1900) else y0
        dateSerial y m d
      | _, _, _ => none
    | _ => none
  else none

/-- The whole day-month-year fallback loop: first separator that both
occurs in the string and parses wins; a failed parse falls through to the
next separator. -/
def dmySearch (t : String) : Option Int :=
  match dmyTry t "." with
  | some v => some v
  | none =>
    match dmyTry t "/" with
    | some v => some v
    | none => dmyTry t "-"

/-- `_to_integer_value(val)` (`xlsx_exporter.py:169-186`).  Python `bool`
is an `int` subclass, hence the `vBool` case. -/
def toIntegerValue : PyVal → Option Rat
  | .vNone => none
  | .vBool b => some (if b then 1 else 0)
  | .vNum q => some q
  | .vStr s =>
    if s == "" then none
    else
      let t := pyStrip s
      if t == "" then none
      else match pyParseInt t with
        | some n => some (mkRat n 1)
        | none => pyParseFloat t

/-- `_to_date_value(val)` (`xlsx_exporter.py:193-226`): numbers pass
through as serials, strings go through the ISO branch then the
day-month-year loop.  (The `datetime` input case cannot arise: rows hold
only `PyVal`s.) -/
def toDateValue : PyVal → Option Rat
  | .vNone => none
  | .vBool b => some (if b then 1 else 0)
  | .vNum q => some q
  | .vStr s =>
    if s == "" then none
    else
      let t := pyStrip s
      if t == "" then none
      else match isoDate t with
        | some days => some (mkRat days 1)
        | none => (dmySearch t).map (fun days => mkRat days 1)

/-- A per-column or per-sheet format dictionary (the `opts` values of
`column_formats_per_sheet` / `default_formats_per_sheet`), restricted to
the keys the cell-writing path reads. -/
structure Fmt where
  numberFormat : Option String := none
  dateFormat : Option String := none
deriving DecidableEq

/-- Python truthiness of a format dict (empty dict is falsy). -/
def Fmt.truthy (f : Fmt) : Bool := f.numberFormat.isSome || f.dateFormat.isSome

/-- Format lookup for one column. -/
def lookupFmt (colFmts : List (String × Fmt)) (c : String) : Option Fmt :=
  (colFmts.find? (fun p => p.1 == c)).map (fun p => p.2)

/-- `(sheet_column_format or {}).get(col_name) or (sheet_default_format or {})`
(`xlsx_exporter.py:415`): a falsy per-column entry falls back to the sheet
default. -/
def resolveFmt (colFmts : List (String × Fmt)) (defFmt : Option Fmt) (c : String) : Fmt :=
  match lookupFmt colFmts c with
  | some f => if f.truthy then f else defFmt.getD {}
  | none => defFmt.getD {}

/-- The typed value `_cell_value` computes (`xlsx_exporter.py:99-107`):
either a shared-string text or a number. -/
inductive CV where
  | s (v : String)
  | n (v : Rat)
deriving DecidableEq

/-- `_cell_value(v)` (`xlsx_exporter.py:99-107`). -/
def cellValue : PyVal → CV
  | .vNone => .s ""
  | .vBool b => .s (if b then "true" else "false")
  | .vNum q => .n q
  | .vStr s => .s s

/-- One sheet of `sheets_data`: (name, rows, columns). -/
structure SheetData where
  name : String
  rows : List (List (String × PyVal))
  columns : List String

/-- The normalisation applied when collecting shared strings
(`xlsx_exporter.py:336-343`): text/boolean/empty values normalise to their
text, any other value (numbers included) contributes `str(val)`. -/
def sstNormalize (v : PyVal) : String :=
  match v with
  | .vStr s => s
  | .vBool b => if b then "true" else "false"
  | .vNone => ""
  | .vNum q => pyNumStr q

/-- `row.get(c, "")`. -/
def rowGet (row : List (String × PyVal)) (c : String) : PyVal :=
  (((row.find? (fun p => p.1 == c)).map (fun p => p.2))).getD (.vStr "")

/-- The full string collection loop of `write_xlsx`
(`xlsx_exporter.py:332-343`): for every sheet, all column headers then
every cell value of every row, normalised. -/
def allStrings (sheets : List SheetData) : List String :=
  (sheets.map (fun sd =>
    sd.columns ++
      (sd.rows.map (fun row => sd.columns.map (fun c => sstNormalize (rowGet row c)))).flatten)).flatten

/-- Order-preserving deduplication of `_build_shared_strings`
(`xlsx_exporter.py:74-79`): the unique-string table, first occurrence
first. -/
def buildSharedStrings (strings : List String) : List String := dedupKeepFirst strings

/-- Index of a string in the table (`str_index[s]`), if present. -/
def listIdx (l : List String) (s : String) : Option Nat :=
  match l with
  | [] => none
  | x :: xs => if x == s then some 0 else (listIdx xs s).map (fun i => i + 1)

/-- `str_index.get(s, 0)`. -/
def getIdx (l : List String) (s : String) : Nat := (listIdx l s).getD 0

/-- A written worksheet cell: numeric with a style index, or a
shared-string reference with a style index (style 0 meaning no `s`
attribute). -/
inductive XCell where
  | num (v : Rat) (style : Nat)
  | sstr (i : Nat) (style : Nat)
deriving DecidableEq

/-- The fallback cell written when a forced format fails to parse
(`xlsx_exporter.py:436-445` and `455-464`): `_cell_value` typing, data
style. -/
def fallbackCell (dataIdx : Nat) (unique : List String) (val : PyVal) : XCell :=
  match cellValue val with
  | .s str => .sstr (getIdx unique str) dataIdx
  | .n q => .num q dataIdx

/-- The per-data-cell logic of `make_worksheet_xml`
(`xlsx_exporter.py:413-475`): forced integer/date formats write numeric
cells when the value parses and fall back to the generic representation
with the data style otherwise; unforced cells use `_cell_value`. -/
def makeDataCell (useInt useDate : Bool) (intIdx dateIdx dataIdx : Nat)
    (fmt : Fmt) (unique : List String) (val : PyVal) : XCell :=
  let isInt := useInt && fmt.numberFormat == some "integer"
  let isDate := useDate && fmt.numberFormat == some "date"
  let cellStyle :=
    if isInt && decide (0 < intIdx) then intIdx
    else if isDate && decide (0 < dateIdx) then dateIdx
    else dataIdx
  if isInt then
    match toIntegerValue val with
    | some q => .num q cellStyle
    | none => fallbackCell dataIdx unique val
  else if isDate then
    match toDateValue val with
    | some q => .num q cellStyle
    | none => fallbackCell dataIdx unique val
  else
    match cellValue val with
    | .n q => .num q cellStyle
    | .s str => .sstr (getIdx unique str) cellStyle

/-- The cells of one data row, in column order. -/
def dataRowCells (useInt useDate : Bool) (intIdx dateIdx dataIdx : Nat)
    (colFmts : List (String × Fmt)) (defFmt : Option Fmt) (unique : List String)
    (columns : List String) (row : List (String × PyVal)) : List XCell :=
  columns.map (fun c =>
    makeDataCell useInt useDate intIdx dateIdx dataIdx
      (resolveFmt colFmts defFmt c) unique (rowGet row c))

/-- All cells of one worksheet: the header row (shared-string references
with the header style, `xlsx_exporter.py:399-405`) followed by every data
row. -/
def sheetCells (useInt useDate : Bool) (intIdx dateIdx headerIdx dataIdx : Nat)
    (colFmts : List (String × Fmt)) (defFmt : Option Fmt) (unique : List String)
    (sd : SheetData) : List XCell :=
  sd.columns.map (fun c => XCell.sstr (getIdx unique c) headerIdx) ++
    (sd.rows.map (dataRowCells useInt useDate intIdx dateIdx dataIdx colFmts defFmt unique sd.columns)).flatten

/-! ### Helper lemmas -/

theorem rowsOfList_mem_obj {l : List Json} {r : Json} (h : r ∈ rowsOfList l) :
    ∃ fields, r = Json.obj fields := by
  rw [rowsOfList, List.mem_map] at h
  obtain ⟨it, _, rfl⟩ := h
  cases it with
  | obj fields => exact ⟨fields, rfl⟩
  | null => exact ⟨_, rfl⟩
  | bool b => exact ⟨_, rfl⟩
  | num q => exact ⟨_, rfl⟩
  | str s => exact ⟨_, rfl⟩
  | arr l2 => exact ⟨_, rfl⟩

/-! ### C8: the extractor on array roots -/

/-- C8: for a JSON array root of N elements, `extract_rows` returns exactly
N rows in the original element order; positionally, an Object element is
returned as-is and a non-Object element is wrapped as the single-key object
`{"_": element}`. -/
theorem c8_extract_rows_array (items : List Json) :
    (extractRows (.arr items)).length = items.length ∧
    (∀ i : Nat, (extractRows (.arr items))[i]? = (items[i]?).map wrapItem) ∧
    (∀ j : Json, (isObjNode j = true → wrapItem j = j) ∧
      (isObjNode j = false → wrapItem j = .obj [("_", j)])) := by
  refine ⟨?_, ?_, ?_⟩
  · simp [extractRows, rowsOfList]
  · intro i
    simp [extractRows, rowsOfList]
  · intro j
    constructor <;> intro h <;> cases j <;> simp_all [isObjNode, wrapItem]

/-- Witness for C8 at a concrete two-element root: the second, non-Object
element comes back wrapped at index 1. -/
theorem c8_witness :
    (extractRows (.arr [Json.obj [("a", .num 1)], .num 2]))[1]? =
      some (.obj [("_", .num 2)]) := by
  have h := c8_extract_rows_array [Json.obj [("a", .num 1)], .num 2]
  rw [h.2.1 1]
  have h3 := (h.2.2 (.num 2)).2 (by rfl)
  rw [show ([Json.obj [("a", .num 1)], Json.num 2][1]? = some (Json.num 2)) from rfl]
  simp [h3]

/-! ### C10: every extracted row is an object -/

/-- C10: for every input value, every element of `extract_rows`' result is
an Object: non-object array elements and non-object roots are wrapped as
`{"_": value}`, so the flattener's row-is-a-mapping precondition always
holds. -/
theorem c10_rows_are_objects (data r : Json) (h : r ∈ extractRows data) :
    ∃ fields, r = Json.obj fields := by
  cases data with
  | arr items => exact rowsOfList_mem_obj h
  | obj fields =>
    rw [extractRows.eq_def] at h
    dsimp only at h
    split at h
    · exact rowsOfList_mem_obj h
    · split at h
      · exact rowsOfList_mem_obj h
      · split at h
        · exact rowsOfList_mem_obj h
        · simp at h
          exact ⟨fields, h⟩
  | null => rw [extractRows.eq_def] at h; simp at h; exact ⟨_, h⟩
  | bool b => rw [extractRows.eq_def] at h; simp at h; exact ⟨_, h⟩
  | num q => rw [extractRows.eq_def] at h; simp at h; exact ⟨_, h⟩
  | str s => rw [extractRows.eq_def] at h; simp at h; exact ⟨_, h⟩

/-- Witness for C10 at a concrete scalar root. -/
theorem c10_witness : ∃ fields, Json.obj [("_", Json.num 7)] = Json.obj fields :=
  c10_rows_are_objects (.num 7) (.obj [("_", .num 7)])
    (by rw [show extractRows (.num 7) = [.obj [("_", .num 7)]] from rfl]
        exact List.mem_singleton.mpr rfl)

/-! ### C9: date parsing day counts -/

/-- C9: under the forced date format, the strings "31.12.2020" and
"2020-12-31" convert to the same numeric day count, and that day count is
the proleptic-Gregorian ordinal distance from the epoch day 1899-12-30. -/
theorem c9_date_day_count :
    toDateValue (.vStr "31.12.2020") = toDateValue (.vStr "2020-12-31") ∧
    toDateValue (.vStr "2020-12-31") =
      some (mkRat ((toOrdinal 2020 12 31 : Int) - (toOrdinal 1899 12 30 : Int)) 1) := by
  constructor
  · decide
  · decide

/-! ### C4: forced integer format -/

/-- C4: in a column forced to the integer number format, a value that
parses as a number is written as a numeric cell equal to that number with
the integer style ("42" becomes numeric 42); a value that does not parse
("abc") is written as a shared-string text cell with the generic data
style; the conversion is total (no error path), and each cell of a row
depends only on its own column's value, so sibling cells are unaffected. -/
theorem c4_integer_format_cells :
    (∀ (unique : List String),
      makeDataCell true false 1 0 4 ⟨some "integer", none⟩ unique (.vStr "42") =
        .num (mkRat 42 1) 1) ∧
    (∀ (unique : List String),
      makeDataCell true false 1 0 4 ⟨some "integer", none⟩ unique (.vStr "abc") =
        .sstr (getIdx unique "abc") 4) ∧
    (∀ (unique : List String) (val : PyVal) (q : Rat), toIntegerValue val = some q →
      makeDataCell true false 1 0 4 ⟨some "integer", none⟩ unique val = .num q 1) ∧
    (∀ (unique : List String) (val : PyVal), toIntegerValue val = none →
      makeDataCell true false 1 0 4 ⟨some "integer", none⟩ unique val =
        fallbackCell 4 unique val) ∧
    (∀ (useInt useDate : Bool) (intIdx dateIdx dataIdx : Nat)
       (colFmts : List (String × Fmt)) (defFmt : Option Fmt) (unique : List String)
       (columns : List String) (rowA rowB : List (String × PyVal)) (c : String),
      (∀ cc ∈ columns, cc ≠ c → rowGet rowA cc = rowGet rowB cc) →
      ∀ i : Nat, columns[i]? ≠ some c →
        (dataRowCells useInt useDate intIdx dateIdx dataIdx colFmts defFmt unique columns rowA)[i]? =
        (dataRowCells useInt useDate intIdx dateIdx dataIdx colFmts defFmt unique columns rowB)[i]?) := by
  refine ⟨fun unique => rfl, fun unique => rfl, ?_, ?_, ?_⟩
  · intro unique val q h
    simp [makeDataCell, h]
  · intro unique val h
    simp [makeDataCell, h]
  · intro useInt useDate intIdx dateIdx dataIdx colFmts defFmt unique columns rowA rowB c hagree i hi
    simp only [dataRowCells, List.getElem?_map]
    cases hc : columns[i]? with
    | none => rfl
    | some cc =>
      have hmem : cc ∈ columns := List.getElem?_mem hc
      have hne : cc ≠ c := by
        intro hcc
        exact hi (by rw [hc, hcc])
      simp [hagree cc hmem hne]

/-- Witness for C4: the general parse-success case applied at the value
"7", and the sibling-independence case applied at a concrete row pair. -/
theorem c4_witness :
    makeDataCell true false 1 0 4 ⟨some "integer", none⟩ ["x"] (.vStr "7") =
      .num (mkRat 7 1) 1 :=
  c4_integer_format_cells.2.2.1 ["x"] (.vStr "7") (mkRat 7 1) (by decide)

/-! ### C5: key-to-segment transformation -/

theorem pyReplaceGo_no_occurrence (pat repl : List Char) :
    ∀ (fuel : Nat) (l : List Char), containsSubList pat l = false →
      pyReplaceGo pat repl fuel l = l := by
  intro fuel
  induction fuel with
  | zero => intro l h; cases l <;> rfl
  | succ fuel ih =>
    intro l h
    cases l with
    | nil => rfl
    | cons c rest =>
      rw [containsSubList] at h
      have h1 : pat.isPrefixOf (c :: rest) = false := by
        cases hp : pat.isPrefixOf (c :: rest) <;> simp_all
      have h2 : containsSubList pat rest = false := by
        cases hp : containsSubList pat rest <;> simp_all
      rw [pyReplaceGo, if_neg (by simp [h1]), ih rest h2]

theorem pyReplace_no_occurrence (s pat repl : String)
    (h : containsSub s pat = false) : pyReplace s pat repl = s := by
  rw [containsSub] at h
  have hne : pat.toList.isEmpty = false := by
    cases hp : pat.toList with
    | nil =>
      exfalso
      cases hs : s.toList with
      | nil => rw [hp, hs] at h; simp [containsSubList] at h
      | cons c rest => rw [hp, hs] at h; simp [containsSubList] at h
    | cons a as => rfl
  rw [pyReplace, if_neg (by simp; exact fun hc => by rw [show pat.toList = pat.data from rfl, hc] at hne; simp at hne),
    pyReplaceGo_no_occurrence _ _ _ _ h]
  rfl

/-- Counterexample to C5 as stated: with separator " - ", the key "a-b"
does not contain the separator substring " - ", yet the emitted column is
"a_b", not "a-b" — because the source replaces the stripped separator
"-" (and then strips the key), not the separator itself. -/
theorem c5_counterexample :
    dictKeys (flattenRow [("a-b", .str "v")] " - " [] []) = ["a_b"] ∧
    containsSub "a-b" " - " = false ∧
    ("a_b" : String) ≠ "a-b" := by decide

/-- C5 as amended: the segment is built by replacing occurrences of the
whitespace-stripped separator with "_" and then stripping whitespace from
the result; a key containing no occurrence of the stripped separator and
no outer whitespace is used unchanged, and the examples "a-b" (hyphen
replaced under separator " - ") and " x " (stripped) show both
transformations firing. -/
theorem c5_amended_segment_rule :
    (∀ (k sep v : String), containsSub k (pyStrip sep) = false → pyStrip k = k →
      flattenRow [(k, .str v)] sep [] [] = [(k, .vStr v)]) ∧
    pySegment "a-b" " - " = "a_b" ∧
    pySegment " x " "." = "x" := by
  refine ⟨?_, by decide, by decide⟩
  intro k sep v h1 h2
  have hseg : pySegment k sep = k := by
    rw [pySegment, pyReplace_no_occurrence _ _ _ h1, h2]
  show flattenOne (.str v) (pySegment k sep) sep [] [] [] = [(k, .vStr v)]
  rw [hseg]
  rfl

/-- Witness for C5 at a key with no stripped-separator occurrence and no
outer whitespace. -/
theorem c5_witness :
    flattenRow [("plain", .str "x")] " - " [] [] = [("plain", .vStr "x")] :=
  c5_amended_segment_rule.1 "plain" " - " "x" (by decide) (by decide)

/-! ### C1: exploded column naming and ordering -/

/-- Counterexample to C1 as stated: with separator ".", the exploded column
for key "address" under prefix "emails" is "emails.address - (1)" — the
index suffix is the hardcoded literal " - (1)", not the separator-built
"emails.address.(1)" the claim requires for every separator. -/
theorem c1_counterexample :
    dictKeys (flattenRow [("emails", .arr [.obj [("address", .str "x")]])] "." [] []) =
      ["emails.address - (1)"] ∧
    dictKeys (flattenRow [("emails", .arr [.obj [("address", .str "x")]])] "." [] []) ≠
      ["emails" ++ "." ++ "address" ++ "." ++ "(1)"] := by decide

/-- C1 as amended: an exploded array-of-objects column is named
`<prefix><sep><segment(key)>` followed by the hardcoded 1-based suffix
" - (i)" (which coincides with `<sep>(i)` exactly when the separator is
the default " - "); on the spec's concrete example with separator " - "
the emitted flat row and the sorted (planned) column list are exactly
"emails - address - (1)", "emails - type - (1)", "emails - address - (2)",
"emails - type - (2)", every (1) column preceding every (2) column. -/
theorem c1_amended_explode_naming :
    (∀ (sep pre k v : String), pre ≠ "" →
      flattenOne (.arr [.obj [(k, .str v)]]) pre sep [] [] [] =
        [(pre ++ sep ++ pySegment k sep ++ " - (1)", .vStr v)]) ∧
    flattenRow [("emails", .arr [.obj [("address", .str "a@b"), ("type", .str "W")],
        .obj [("address", .str "c@d"), ("type", .str "H")]])] " - " [] [] =
      [("emails - address - (1)", .vStr "a@b"), ("emails - type - (1)", .vStr "W"),
       ("emails - address - (2)", .vStr "c@d"), ("emails - type - (2)", .vStr "H")] ∧
    stableSort colSortLe (dictKeys (flattenRow
        [("emails", .arr [.obj [("address", .str "a@b"), ("type", .str "W")],
          .obj [("address", .str "c@d"), ("type", .str "H")]])] " - " [] [])) =
      ["emails - address - (1)", "emails - type - (1)", "emails - address - (2)",
       "emails - type - (2)"] := by
  refine ⟨?_, by decide, by decide⟩
  intro sep pre k v h
  have hb : (pre == "") = false := beq_eq_false_iff_ne.mpr h
  show explodeItemFields [(k, .str v)] (arrayIdxSuffix 0) pre sep [] [] [] = _
  rw [show arrayIdxSuffix 0 = " - (1)" from rfl]
  rw [explodeItemFields]
  simp only [hb, List.contains, List.elem, Bool.false_eq_true, if_false,
    scopedSkipArray, List.any_nil]
  rfl

/-- Witness for C1 at a concrete non-empty prefix and separator ".". -/
theorem c1_witness :
    flattenOne (.arr [.obj [("k", .str "v")]]) "p" "." [] [] [] =
      [("p" ++ "." ++ pySegment "k" "." ++ " - (1)", .vStr "v")] :=
  c1_amended_explode_naming.1 "." "p" "k" "v" (by decide)

/-! ### C2: which arrays are exploded -/

/-- Counterexample to C2 as stated: the array [{"b": 1}, "x"] contains an
Object, yet it is not exploded — the whole array is serialized as JSON
text into the single cell "a", because the source explodes only when every
element is an Object. -/
theorem c2_counterexample :
    flattenRow [("a", .arr [.obj [("b", .num 1)], .str "x"])] " - " [] [] =
      [("a", .vStr "[\x7b\"b\": 1\x7d, \"x\"]")] ∧
    dictKeys (flattenRow [("a", .arr [.obj [("b", .num 1)], .str "x"])] " - " [] []) =
      ["a"] := by decide

/-- C2 as amended: a non-empty array that is not all-scalar is exploded
precisely when all of its elements are Objects; otherwise (any mix of
objects with non-object elements, composite or scalar) it is serialized as
compact JSON text into the single cell at the current prefix.  The two
concrete instances show one array of pure objects exploding and one mixed
array serializing. -/
theorem c2_amended_explode_condition :
    (∀ (items : List Json) (pre sep : String) (out : List (String × PyVal))
       (excl : List String) (rules : List ExclRule),
      excl.contains pre = false → items ≠ [] → items.all isScalarLike = false →
      ((items.all isObjNode = true →
         flattenOne (.arr items) pre sep out excl rules =
           explodeItems items 0 pre sep out excl rules) ∧
       (items.all isObjNode = false →
         flattenOne (.arr items) pre sep out excl rules =
           dictSet out pre (.vStr (pyJsonDumps (.arr items)))))) ∧
    flattenRow [("a", .arr [.obj [("b", .num 1)], .str "x"])] " - " [] [] =
      [("a", .vStr "[\x7b\"b\": 1\x7d, \"x\"]")] ∧
    flattenRow [("k", .arr [.obj [("p", .num 1)], .obj [("q", .num 2)]])] " - " [] [] =
      [("k - p - (1)", .vNum 1), ("k - q - (2)", .vNum 2)] := by
  refine ⟨?_, by decide, by decide⟩
  intro items pre sep out excl rules h1 h2 h3
  have hie : items.isEmpty = false := by
    cases items with
    | nil => exact absurd rfl h2
    | cons a as => rfl
  rw [flattenOne.eq_def]
  rw [if_neg (by simp at h1 ⊢; exact h1)]
  dsimp only
  rw [if_neg (by simp [hie]), if_neg (by simp [h3])]
  constructor
  · intro h4
    rw [if_pos (by simp [h4])]
  · intro h4
    rw [if_neg (by simp [h4])]

/-- Witness for C2 applying the general branch characterization at the
mixed array. -/
theorem c2_witness :
    flattenOne (.arr [.obj [("b", .num 1)], .str "x"]) "a" " - " [] [] [] =
      dictSet [] "a" (.vStr (pyJsonDumps (.arr [.obj [("b", .num 1)], .str "x"]))) :=
  ((c2_amended_explode_condition.1 [.obj [("b", .num 1)], .str "x"] "a" " - " [] [] []
    (by decide) (List.cons_ne_nil _ _) (by decide)).2) (by decide)

/-! ### C6: exclusion -/

theorem dictKeys_map_update (m : List (String × PyVal)) (k : String) (v : PyVal) :
    dictKeys (m.map (fun p => if p.1 == k then (k, v) else p)) = dictKeys m := by
  induction m with
  | nil => rfl
  | cons p rest ih =>
    simp only [List.map_cons, dictKeys] at ih ⊢
    rw [ih]
    cases hpk : (p.1 == k) with
    | true => simp [eq_of_beq hpk]
    | false => simp

theorem mem_dictKeys_dictSet {a : String} {m : List (String × PyVal)} {k : String} {v : PyVal}
    (h : a ∈ dictKeys (dictSet m k v)) : a ∈ dictKeys m ∨ a = k := by
  rw [dictSet] at h
  split at h
  · rw [dictKeys_map_update] at h
    exact .inl h
  · rw [dictKeys, List.map_append] at h
    rcases List.mem_append.mp h with hm | hm
    · exact .inl hm
    · simp at hm
      exact .inr hm

/-- Keys of `res` are either keys of `out` or not excluded. -/
def keysOk (excl : List String) (out res : List (String × PyVal)) : Prop :=
  ∀ a, a ∈ dictKeys res → a ∈ dictKeys out ∨ excl.contains a = false

theorem keysOk_refl (excl : List String) (out : List (String × PyVal)) : keysOk excl out out :=
  fun _ h => .inl h

theorem keysOk_trans {excl : List String} {out mid res : List (String × PyVal)}
    (h1 : keysOk excl mid res) (h2 : keysOk excl out mid) : keysOk excl out res := by
  intro a ha
  rcases h1 a ha with hm | hf
  · exact h2 a hm
  · exact .inr hf

theorem keysOk_dictSet {excl : List String} {out : List (String × PyVal)} {k : String}
    {v : PyVal} (hk : excl.contains k = false) : keysOk excl out (dictSet out k v) := by
  intro a ha
  rcases mem_dictKeys_dictSet ha with hm | rfl
  · exact .inl hm
  · exact .inr hk

/-- Bound-indexed induction showing that every key the flattener family
writes is either already present or not in the exclude set (every write is
guarded by an exact-exclusion check). -/
theorem flatten_keys_aux : ∀ (n : Nat),
    (∀ (obj : Json) (pre sep : String) (out : List (String × PyVal))
       (excl : List String) (rules : List ExclRule), sizeOf obj ≤ n →
       keysOk excl out (flattenOne obj pre sep out excl rules)) ∧
    (∀ (items : List Json) (idx : Nat) (pre sep : String) (out : List (String × PyVal))
       (excl : List String) (rules : List ExclRule), sizeOf items ≤ n →
       keysOk excl out (explodeItems items idx pre sep out excl rules)) ∧
    (∀ (fields : List (String × Json)) (suffix pre sep : String) (out : List (String × PyVal))
       (excl : List String) (rules : List ExclRule), sizeOf fields ≤ n →
       keysOk excl out (explodeItemFields fields suffix pre sep out excl rules)) ∧
    (∀ (fields : List (String × Json)) (pre sep : String) (out : List (String × PyVal))
       (excl : List String) (rules : List ExclRule), sizeOf fields ≤ n →
       keysOk excl out (objFields fields pre sep out excl rules)) := by
  intro n
  induction n with
  | zero =>
    refine ⟨fun obj _ _ _ _ _ h => ?_, fun items _ _ _ _ _ _ h => ?_,
            fun fields _ _ _ _ _ _ h => ?_, fun fields _ _ _ _ _ h => ?_⟩
    · cases obj <;> simp at h
    · cases items <;> simp at h
    · cases fields <;> simp at h
    · cases fields <;> simp at h
  | succ n ih =>
    obtain ⟨ihJ, ihA, ihF, ihO⟩ := ih
    refine ⟨fun obj pre sep out excl rules h => ?_, fun items idx pre sep out excl rules h => ?_,
            fun fields suffix pre sep out excl rules h => ?_, fun fields pre sep out excl rules h => ?_⟩
    · rw [flattenOne.eq_def]
      split
      · exact keysOk_refl _ _
      · rename_i hpre
        have hpre2 : excl.contains pre = false := by
          revert hpre; cases excl.contains pre <;> simp
        cases obj with
        | null => exact keysOk_dictSet hpre2
        | bool b => exact keysOk_dictSet hpre2
        | num q => exact keysOk_dictSet hpre2
        | str s2 => exact keysOk_dictSet hpre2
        | arr items =>
          show keysOk excl out (if items.isEmpty = true then _ else _)
          split
          · exact keysOk_dictSet hpre2
          · split
            · exact keysOk_dictSet hpre2
            · split
              · exact ihA items 0 pre sep out excl rules (by simp at h; omega)
              · exact keysOk_dictSet hpre2
        | obj fields => exact ihO fields pre sep out excl rules (by simp at h; omega)
    · cases items with
      | nil => rw [explodeItems.eq_1]; exact keysOk_refl _ _
      | cons item rest =>
        have hrest : sizeOf rest ≤ n := by simp at h; omega
        cases item with
        | obj fields =>
          rw [explodeItems.eq_2]
          exact keysOk_trans (ihA rest (idx + 1) pre sep _ excl rules hrest)
            (ihF fields (arrayIdxSuffix idx) pre sep out excl rules (by simp at h; omega))
        | null =>
          rw [explodeItems.eq_3]
          · exact ihA rest (idx + 1) pre sep out excl rules hrest
          · exact fun fields hf => Json.noConfusion hf
        | bool b =>
          rw [explodeItems.eq_3]
          · exact ihA rest (idx + 1) pre sep out excl rules hrest
          · exact fun fields hf => Json.noConfusion hf
        | num q =>
          rw [explodeItems.eq_3]
          · exact ihA rest (idx + 1) pre sep out excl rules hrest
          · exact fun fields hf => Json.noConfusion hf
        | str s2 =>
          rw [explodeItems.eq_3]
          · exact ihA rest (idx + 1) pre sep out excl rules hrest
          · exact fun fields hf => Json.noConfusion hf
        | arr l2 =>
          rw [explodeItems.eq_3]
          · exact ihA rest (idx + 1) pre sep out excl rules hrest
          · exact fun fields hf => Json.noConfusion hf
    · cases fields with
      | nil => rw [explodeItemFields.eq_def]; exact keysOk_refl _ _
      | cons kv rest =>
        obtain ⟨k, v⟩ := kv
        rw [explodeItemFields.eq_def]
        refine keysOk_trans (ihF rest suffix pre sep _ excl rules (by simp at h; omega)) ?_
        have hv : sizeOf v ≤ n := by simp at h; omega
        repeat' first
          | exact keysOk_refl _ _
          | exact ihJ _ _ sep out excl rules hv
          | split
          | dsimp only
    · cases fields with
      | nil => rw [objFields.eq_def]; exact keysOk_refl _ _
      | cons kv rest =>
        obtain ⟨k, v⟩ := kv
        rw [objFields.eq_def]
        refine keysOk_trans (ihO rest pre sep _ excl rules (by simp at h; omega)) ?_
        have hv : sizeOf v ≤ n := by simp at h; omega
        repeat' first
          | exact keysOk_refl _ _
          | exact ihJ _ _ sep out excl rules hv
          | split
          | dsimp only

/-- Every key of a flattened row avoids the exclude set: specialisation of
the bound-indexed lemma plus the foldl of `flattenRow`. -/
theorem flattenRow_keys_not_excluded (row : List (String × Json)) (sep : String)
    (excl : List String) (rules : List ExclRule) :
    ∀ a, a ∈ dictKeys (flattenRow row sep excl rules) → excl.contains a = false := by
  have haux : ∀ (rest : List (String × Json)) (acc : List (String × PyVal)),
      (∀ a, a ∈ dictKeys acc → excl.contains a = false) →
      ∀ a, a ∈ dictKeys (rest.foldl (fun flat kv =>
        if excl.contains kv.1 then flat
        else flattenOne kv.2 (pySegment kv.1 sep) sep flat excl rules) acc) →
        excl.contains a = false := by
    intro rest
    induction rest with
    | nil => intro acc hacc a ha; exact hacc a ha
    | cons kv rest2 ih =>
      intro acc hacc a ha
      rw [List.foldl_cons] at ha
      refine ih _ ?_ a ha
      intro b hb
      by_cases hk : excl.contains kv.1 = true
      · rw [if_pos hk] at hb
        exact hacc b hb
      · rw [if_neg hk] at hb
        rcases (flatten_keys_aux (sizeOf kv.2)).1 kv.2 (pySegment kv.1 sep) sep acc excl rules
            (Nat.le_refl _) b hb with hm | hf
        · exact hacc b hm
        · exact hf
  exact haux row [] (fun a ha => by simp [dictKeys] at ha)

/-- Counterexample to C6 as stated: with the path "a - b" excluded, the
row with an array of objects under "a" still emits the column
"a - b - (1) - x", which is nested under the excluded path (the exploded
column name is only compared for exact membership); and re-applying the
same exclusion to the already-excluded output rewrites the key (its
separator cores become "_"), so the exclusion is not idempotent. -/
theorem c6_counterexample :
    (dictKeys (flattenRow [("a", .arr [.obj [("b", .obj [("x", .num 1)])]])] " - "
        ["a - b"] []) = ["a - b - (1) - x"] ∧
      pyStartsWith "a - b - (1) - x" ("a - b" ++ " - ") = true) ∧
    flattenRow [("a - b - (1) - x", .num 1)] " - " ["a - b"] [] ≠
      [("a - b - (1) - x", .vNum 1)] := by decide

/-- C6 as amended: exclusion removes exactly the columns whose full name
is a member of the exclude set — no emitted column is ever in the set (in
particular no column named K when K is excluded); columns nested under an
excluded path can still appear through array-of-objects explosion, and
re-flattening the output is not in general a no-op. -/
theorem c6_amended_exclusion :
    (∀ (row : List (String × Json)) (sep : String) (excl : List String)
       (rules : List ExclRule) (a : String),
      a ∈ dictKeys (flattenRow row sep excl rules) → excl.contains a = false) ∧
    (∀ (row : List (String × Json)) (sep : String) (excl : List String)
       (rules : List ExclRule) (K : String),
      excl.contains K = true → K ∉ dictKeys (flattenRow row sep excl rules)) := by
  refine ⟨fun row sep excl rules => flattenRow_keys_not_excluded row sep excl rules, ?_⟩
  intro row sep excl rules K hK hmem
  rw [flattenRow_keys_not_excluded row sep excl rules K hmem] at hK
  exact Bool.noConfusion hK

/-- Witness for C6: excluding "b" removes the possibility of a column
named "b" in a concrete row. -/
theorem c6_witness :
    "b" ∉ dictKeys (flattenRow [("a", .num 1), ("b", .num 2)] " - " ["b"] []) :=
  c6_amended_exclusion.2 [("a", .num 1), ("b", .num 2)] " - " ["b"] [] "b" (by decide)

/-! ### C7: column_order reordering -/

theorem insertLe_perm (le : String → String → Bool) (x : String) (l : List String) :
    List.Perm (insertLe le x l) (x :: l) := by
  induction l with
  | nil => rfl
  | cons y ys ih =>
    rw [insertLe]
    split
    · rfl
    · exact (ih.cons y).trans (List.Perm.swap x y ys)

theorem stableSort_perm (le : String → String → Bool) (l : List String) :
    List.Perm (stableSort le l) l := by
  induction l with
  | nil => rfl
  | cons x xs ih =>
    rw [stableSort]
    exact (insertLe_perm le x (stableSort le xs)).trans (ih.cons x)

theorem stableSort_nodup (le : String → String → Bool) {l : List String} (h : l.Nodup) :
    (stableSort le l).Nodup := ((stableSort_perm le l).nodup_iff).mpr h

theorem stableSort_mem (le : String → String → Bool) {l : List String} {a : String} :
    a ∈ stableSort le l ↔ a ∈ l := (stableSort_perm le l).mem_iff

/-- The ordered and used components of the fold stay equal. -/
theorem orderedPart_fst_eq_snd (columns : List String) (order : List String) (sep : String) :
    (orderedPart columns order sep).1 = (orderedPart columns order sep).2 := by
  rw [orderedPart]
  have haux : ∀ (rest : List String) (acc : List String × List String), acc.1 = acc.2 →
      (rest.foldl (orderStep columns (if sep == "" then " - " else sep)) acc).1 =
      (rest.foldl (orderStep columns (if sep == "" then " - " else sep)) acc).2 := by
    intro rest
    induction rest with
    | nil => intro acc h; exact h
    | cons item rest2 ih =>
      intro acc h
      rw [List.foldl_cons]
      refine ih _ ?_
      rw [orderStep]
      split
      · exact h
      · split
        · simp [h]
        · simp [h]
  exact haux order ([], []) rfl

/-- Invariant of the `column_order` fold: no duplicates in the ordered
list, and every placed column comes from `columns`. -/
theorem orderStep_fold_invariant (columns : List String) (prefixSep : String)
    (hcols : columns.Nodup) :
    ∀ (order : List String) (acc : List String × List String),
      acc.1 = acc.2 → acc.1.Nodup → (∀ x ∈ acc.1, x ∈ columns) →
      ((order.foldl (orderStep columns prefixSep) acc).1.Nodup ∧
        (∀ x ∈ (order.foldl (orderStep columns prefixSep) acc).1, x ∈ columns)) := by
  intro order
  induction order with
  | nil => intro acc _ h2 h3; exact ⟨h2, h3⟩
  | cons item rest ih =>
    intro acc h1 h2 h3
    rw [List.foldl_cons]
    have hstep1 : (orderStep columns prefixSep acc item).1 = (orderStep columns prefixSep acc item).2 := by
      rw [orderStep]
      split
      · exact h1
      · split
        · simp [h1]
        · simp [h1]
    refine ih (orderStep columns prefixSep acc item) hstep1 ?_ ?_
    · rw [orderStep]
      split
      · exact h2
      · split
        · rename_i hcond
          have hnm : pyStrip item ∉ acc.1 := by
            rw [Bool.and_eq_true] at hcond
            have hc2 := hcond.2
            rw [Bool.not_eq_true'] at hc2
            rw [h1]
            simp at hc2
            exact hc2
          simp [List.nodup_append, h2, hnm]
        · have hmatch : (stableSort colSortLe (columns.filter
              (fun c => pyStartsWith c (pyStrip item ++ prefixSep) && !acc.2.contains c))).Nodup :=
            stableSort_nodup _ (hcols.filter _)
          rw [List.nodup_append]
          refine ⟨h2, hmatch, ?_⟩
          intro x hx hx2
          rw [stableSort_mem] at hx2
          rw [List.mem_filter, Bool.and_eq_true, Bool.not_eq_true'] at hx2
          have := hx2.2.2
          simp at this
          rw [← h1] at this
          exact this hx
    · rw [orderStep]
      split
      · exact h3
      · split
        · rename_i hcond
          rw [Bool.and_eq_true] at hcond
          intro x hx
          rcases List.mem_append.mp hx with hm | hm
          · exact h3 x hm
          · simp at hm
            subst hm
            have := hcond.1
            simp at this
            exact this
        · intro x hx
          rcases List.mem_append.mp hx with hm | hm
          · exact h3 x hm
          · rw [stableSort_mem, List.mem_filter] at hm
            exact hm.1

/-- Counterexample to C7 as stated: the token " emails " neither exactly
matches a column nor is, as written, a group prefix of any column
(no column starts with " emails  - "), so by the claim every column is
unmentioned and the default order ["alpha", "emails - a"] must be
returned; but the source strips the token first and pulls the emails
group to the front. -/
theorem c7_counterexample :
    applyColumnOrder ["alpha", "emails - a"] [" emails "] " - " = ["emails - a", "alpha"] ∧
    stableSort colSortLe ["alpha", "emails - a"] = ["alpha", "emails - a"] ∧
    (∀ c ∈ (["alpha", "emails - a"] : List String),
      " emails " ≠ c ∧ pyStartsWith c (" emails " ++ " - ") = false) ∧
    (["emails - a", "alpha"] : List String) ≠ ["alpha", "emails - a"] := by decide

/-- C7 as amended: tokens are whitespace-stripped first (blank tokens are
skipped); a stripped token equal to a column name is placed next, any
other pulls every column starting with <token><sep> contiguously in
default intra-group order; unmentioned columns follow in the incoming
default order (the result is the placed part followed by the remaining
columns in order); no column appears twice; and column_order=["emails"]
pulls the exploded emails group, (1) before (2), to the front. -/
theorem c7_amended_column_order :
    (∀ (columns order : List String) (sep : String), columns.Nodup →
      (applyColumnOrder columns order sep).Nodup) ∧
    (∀ (columns order : List String) (sep : String) (c : String), columns.Nodup →
      (c ∈ applyColumnOrder columns order sep ↔ c ∈ columns)) ∧
    (∀ (columns order : List String) (sep : String),
      applyColumnOrder columns order sep =
        (orderedPart columns order sep).1 ++
          columns.filter (fun c => !(orderedPart columns order sep).1.contains c)) ∧
    applyColumnOrder ["alpha", "emails - address - (1)", "emails - type - (1)",
        "emails - address - (2)", "emails - type - (2)"] ["emails"] " - " =
      ["emails - address - (1)", "emails - type - (1)", "emails - address - (2)",
       "emails - type - (2)", "alpha"] := by
  have hinv : ∀ (columns order : List String) (sep : String), columns.Nodup →
      ((orderedPart columns order sep).1.Nodup ∧
        (∀ x ∈ (orderedPart columns order sep).1, x ∈ columns)) := by
    intro columns order sep hcols
    rw [orderedPart]
    exact orderStep_fold_invariant columns _ hcols order ([], []) rfl List.nodup_nil
      (by intro x hx; simp at hx)
  have hdecomp : ∀ (columns order : List String) (sep : String),
      applyColumnOrder columns order sep =
        (orderedPart columns order sep).1 ++
          columns.filter (fun c => !(orderedPart columns order sep).1.contains c) := by
    intro columns order sep
    rw [applyColumnOrder]
    rw [show ((orderedPart columns order sep).2 : List String) =
      (orderedPart columns order sep).1 from (orderedPart_fst_eq_snd columns order sep).symm]
  refine ⟨?_, ?_, hdecomp, by decide⟩
  · intro columns order sep hcols
    obtain ⟨hnd, hsub⟩ := hinv columns order sep hcols
    rw [hdecomp]
    rw [List.nodup_append]
    refine ⟨hnd, hcols.filter _, ?_⟩
    intro x hx hx2
    rw [List.mem_filter, Bool.not_eq_true'] at hx2
    have := hx2.2
    simp at this
    exact this hx
  · intro columns order sep c hcols
    obtain ⟨hnd, hsub⟩ := hinv columns order sep hcols
    rw [hdecomp]
    constructor
    · intro hc
      rcases List.mem_append.mp hc with hm | hm
      · exact hsub c hm
      · exact (List.mem_filter.mp hm).1
    · intro hc
      by_cases hin : c ∈ (orderedPart columns order sep).1
      · exact List.mem_append.mpr (.inl hin)
      · refine List.mem_append.mpr (.inr ?_)
        rw [List.mem_filter]
        refine ⟨hc, ?_⟩
        rw [Bool.not_eq_true']
        simp
        exact hin

/-- Witness for C7: the no-duplicates property applied at a concrete
column list. -/
theorem c7_witness :
    (applyColumnOrder ["b", "a - x"] ["a", "zz"] " - ").Nodup :=
  c7_amended_column_order.1 ["b", "a - x"] ["a", "zz"] " - " (by decide)

/-! ### C3: the workbook-wide shared-string table -/

theorem dedupKeepFirst_aux : ∀ (l acc : List String),
    (∀ x, x ∈ l.foldl (fun acc s => if acc.contains s then acc else acc ++ [s]) acc ↔
      x ∈ acc ∨ x ∈ l) ∧
    (acc.Nodup → (l.foldl (fun acc s => if acc.contains s then acc else acc ++ [s]) acc).Nodup) := by
  intro l
  induction l with
  | nil =>
    intro acc
    refine ⟨fun x => ?_, fun h => h⟩
    simp
  | cons a rest ih =>
    intro acc
    rw [List.foldl_cons]
    constructor
    · intro x
      rw [(ih _).1 x]
      constructor
      · intro hx
        rcases hx with hx | hx
        · split at hx
          · exact .inl hx
          · rcases List.mem_append.mp hx with hm | hm
            · exact .inl hm
            · simp at hm
              exact .inr (by simp [hm])
        · exact .inr (by simp [hx])
      · intro hx
        rcases hx with hx | hx
        · left
          split
          · exact hx
          · exact List.mem_append.mpr (.inl hx)
        · rcases List.mem_cons.mp hx with hm | hm
          · left
            split
            · rename_i hc
              subst hm
              simp at hc
              exact hc
            · subst hm
              exact List.mem_append.mpr (.inr (by simp))
          · exact .inr hm
    · intro hnd
      refine (ih _).2 ?_
      split
      · exact hnd
      · rename_i hc
        rw [List.nodup_append]
        refine ⟨hnd, by simp, ?_⟩
        intro x hx hx2
        simp at hx2
        subst hx2
        simp at hc
        exact hc hx

theorem mem_buildSharedStrings {l : List String} {x : String} :
    x ∈ buildSharedStrings l ↔ x ∈ l := by
  rw [buildSharedStrings, dedupKeepFirst]
  rw [(dedupKeepFirst_aux l []).1 x]
  simp

theorem nodup_buildSharedStrings (l : List String) : (buildSharedStrings l).Nodup :=
  (dedupKeepFirst_aux l []).2 List.nodup_nil

theorem listIdx_lt {l : List String} {s : String} (h : s ∈ l) :
    ∃ i, listIdx l s = some i ∧ i < l.length := by
  induction l with
  | nil => cases h
  | cons x xs ih =>
    rw [listIdx]
    by_cases hx : (x == s) = true
    · rw [if_pos hx]
      exact ⟨0, rfl, by simp⟩
    · rw [if_neg hx]
      have hmem : s ∈ xs := by
        rcases List.mem_cons.mp h with h1 | h1
        · exact absurd (by simp [h1]) hx
        · exact h1
      obtain ⟨i, hi, hlt⟩ := ih hmem
      refine ⟨i + 1, by rw [hi]; rfl, ?_⟩
      simp
      omega

theorem getIdx_lt {l : List String} {s : String} (h : s ∈ l) : getIdx l s < l.length := by
  obtain ⟨i, hi, hlt⟩ := listIdx_lt h
  rw [getIdx, hi]
  exact hlt

theorem header_mem_allStrings {sheets : List SheetData} {sd : SheetData} {c : String}
    (hsd : sd ∈ sheets) (hc : c ∈ sd.columns) : c ∈ allStrings sheets := by
  rw [allStrings, List.mem_flatten]
  exact ⟨_, List.mem_map_of_mem _ hsd, List.mem_append.mpr (.inl hc)⟩

theorem cellString_mem_allStrings {sheets : List SheetData} {sd : SheetData}
    {row : List (String × PyVal)} {c : String} (hsd : sd ∈ sheets) (hrow : row ∈ sd.rows)
    (hc : c ∈ sd.columns) : sstNormalize (rowGet row c) ∈ allStrings sheets := by
  rw [allStrings, List.mem_flatten]
  refine ⟨_, List.mem_map_of_mem _ hsd, List.mem_append.mpr (.inr ?_)⟩
  rw [List.mem_flatten]
  exact ⟨_, List.mem_map_of_mem _ hrow, List.mem_map_of_mem _ hc⟩

theorem cellValue_s_normalize {val : PyVal} {str : String} (h : cellValue val = .s str) :
    sstNormalize val = str := by
  cases val <;> simp_all [cellValue, sstNormalize]

theorem makeDataCell_sstr {useInt useDate : Bool} {intIdx dateIdx dataIdx : Nat} {fmt : Fmt}
    {unique : List String} {val : PyVal} {i st : Nat}
    (h : makeDataCell useInt useDate intIdx dateIdx dataIdx fmt unique val = .sstr i st) :
    ∃ str, cellValue val = .s str ∧ i = getIdx unique str := by
  rw [makeDataCell] at h
  split at h
  · split at h
    · exact absurd h (by simp)
    · rw [fallbackCell] at h
      split at h
      · rename_i str heq
        simp at h
        exact ⟨str, heq, h.1.symm⟩
      · exact absurd h (by simp)
  · split at h
    · split at h
      · exact absurd h (by simp)
      · rw [fallbackCell] at h
        split at h
        · rename_i str heq
          simp at h
          exact ⟨str, heq, h.1.symm⟩
        · exact absurd h (by simp)
    · split at h
      · exact absurd h (by simp)
      · rename_i str heq
        simp at h
        exact ⟨str, heq, h.1.symm⟩

/-- Counterexample to C3 as stated: a workbook whose only sheet holds the
single numeric cell 42 has shared-string table ["a", "42"] — the numeric
value's string rendering "42" enters the table (xlsx_exporter.py:343
appends str(val) for every non-text value), whereas the claim's table,
fed only by headers and text/boolean/empty cells, would be ["a"]. -/
theorem c3_counterexample :
    buildSharedStrings (allStrings [⟨"S", [[("a", .vNum 42)]], ["a"]⟩]) = ["a", "42"] ∧
    buildSharedStrings (allStrings [⟨"S", [[("a", .vNum 42)]], ["a"]⟩]) ≠ ["a"] ∧
    sstNormalize (.vNum 42) = "42" := by decide

/-- C3 as amended: `write_xlsx` builds exactly one shared-string table for
the whole workbook; every sheet's header names and every cell value
contribute entries — text, boolean and empty values as their text, numeric
values via their string rendering — deduplicated across all sheets (the
table is duplicate-free and holds exactly the collected strings); and
every shared-string index written into any cell of any worksheet refers to
an existing entry of that table (numeric cells are still written as
numbers, not string references). -/
theorem c3_amended_shared_strings :
    (∀ strings : List String, (buildSharedStrings strings).Nodup) ∧
    (∀ (strings : List String) (s : String), s ∈ buildSharedStrings strings ↔ s ∈ strings) ∧
    (∀ (sheets : List SheetData) (useInt useDate : Bool)
       (intIdx dateIdx headerIdx dataIdx : Nat) (colFmts : List (String × Fmt))
       (defFmt : Option Fmt) (sd : SheetData), sd ∈ sheets →
       ∀ cell ∈ sheetCells useInt useDate intIdx dateIdx headerIdx dataIdx colFmts defFmt
          (buildSharedStrings (allStrings sheets)) sd,
         ∀ i st, cell = XCell.sstr i st →
           i < (buildSharedStrings (allStrings sheets)).length) := by
  refine ⟨nodup_buildSharedStrings, fun strings s => mem_buildSharedStrings, ?_⟩
  intro sheets useInt useDate intIdx dateIdx headerIdx dataIdx colFmts defFmt sd hsd cell hcell i st hc
  subst hc
  rw [sheetCells] at hcell
  rcases List.mem_append.mp hcell with hm | hm
  · rw [List.mem_map] at hm
    obtain ⟨c, hcmem, hceq⟩ := hm
    have hi : i = getIdx (buildSharedStrings (allStrings sheets)) c := by
      have := hceq
      simp at this
      exact this.1.symm
    rw [hi]
    exact getIdx_lt (mem_buildSharedStrings.mpr (header_mem_allStrings hsd hcmem))
  · rw [List.mem_flatten] at hm
    obtain ⟨block, hblock, hcellmem⟩ := hm
    rw [List.mem_map] at hblock
    obtain ⟨row, hrow, hbeq⟩ := hblock
    subst hbeq
    rw [dataRowCells, List.mem_map] at hcellmem
    obtain ⟨c, hcmem, hceq⟩ := hcellmem
    obtain ⟨str, hcv, hi⟩ := makeDataCell_sstr hceq
    have hstr : str = sstNormalize (rowGet row c) := (cellValue_s_normalize hcv).symm
    rw [hi, hstr]
    exact getIdx_lt (mem_buildSharedStrings.mpr (cellString_mem_allStrings hsd hrow hcmem))

/-- Witness for C3: the index-validity part applied at a concrete one-cell
workbook, at the header cell. -/
theorem c3_witness :
    getIdx (buildSharedStrings (allStrings [⟨"S", [[("a", .vStr "x")]], ["a"]⟩])) "a" <
      (buildSharedStrings (allStrings [⟨"S", [[("a", .vStr "x")]], ["a"]⟩])).length :=
  c3_amended_shared_strings.2.2 [⟨"S", [[("a", .vStr "x")]], ["a"]⟩] false false 0 0 7 0 [] none
    ⟨"S", [[("a", .vStr "x")]], ["a"]⟩ (by simp)
    (XCell.sstr (getIdx (buildSharedStrings (allStrings [⟨"S", [[("a", .vStr "x")]], ["a"]⟩])) "a") 7)
    (by decide) _ _ rfl
